import Mathlib

/-!
Verification development for the input/camera/audio control core of the
black-hole visualization: the gesture/pointer input adapter, the orbital
camera rig, the audio parameter controller, and the probe spawner.

Numeric values carried by the program (floats in the source) are modelled
exactly as rationals; square-root comparisons from the source
(`Math.hypot(...) < t`, `position.length() < 3.0`) are embedded by the
equivalent comparison of squares, with bridging lemmas relating them to the
real-valued Euclidean distance.
-/

namespace BlackHoleChill

/-- `THREE.MathUtils.lerp(x, y, t) = x + (y - x) * t`. -/
def lerp (x y t : ℚ) : ℚ := x + (y - x) * t

/-- `THREE.MathUtils.mapLinear(x, a1, a2, b1, b2) = b1 + (x - a1) * (b2 - b1) / (a2 - a1)`. -/
def mapLinear (x a1 a2 b1 b2 : ℚ) : ℚ := b1 + (x - a1) * (b2 - b1) / (a2 - a1)

/-- The normalized input signal `{x, y, pinched}` shared by all consumers. -/
structure InputSignal where
  x : ℚ
  y : ℚ
  pinched : Bool
deriving DecidableEq

/-- CameraRig: `const targetRadius = input.pinched ? 12 : 40`. -/
def targetRadius (pinched : Bool) : ℚ := if pinched then 12 else 40

/-- CameraRig per-frame radius update:
`currentRadius = THREE.MathUtils.lerp(currentRadius, targetRadius, 0.03)`. -/
def radiusStep (r : ℚ) (pinched : Bool) : ℚ := lerp r (targetRadius pinched) (3 / 100)

/-- The radius over a run of frames with pinched values `ps`, starting from
the initial value `useRef(40)`. -/
def radiusRun (ps : ℕ → Bool) : ℕ → ℚ
  | 0 => 40
  | n + 1 => radiusStep (radiusRun ps n) (ps n)

lemma radiusStep_sub_target (r : ℚ) (p : Bool) :
    radiusStep r p - targetRadius p = (97 / 100) * (r - targetRadius p) := by
  unfold radiusStep lerp; ring

lemma radiusStep_sub_self (r : ℚ) (p : Bool) :
    radiusStep r p - r = (targetRadius p - r) * (3 / 100) := by
  unfold radiusStep lerp; ring

lemma radiusRun_true_sub (n : ℕ) :
    radiusRun (fun _ => true) n - 12 = 28 * (97 / 100) ^ n := by
  induction n with
  | zero => norm_num [radiusRun]
  | succ n ih =>
      have h : radiusRun (fun _ => true) (n + 1) - 12 =
          (97 / 100) * (radiusRun (fun _ => true) n - 12) := by
        have := radiusStep_sub_target (radiusRun (fun _ => true) n) true
        simpa [radiusRun, targetRadius] using this
      rw [h, ih, pow_succ]; ring

/-- Claim C1: under a constant `pinched`, `currentRadius` moves monotonically
toward `targetRadius` and never crosses it; starting at 40 with `pinched` held
true, the radius sequence is strictly decreasing, stays strictly above 12, and
its distance to 12 contracts by the factor 97/100 each frame. -/
theorem radius_monotone_toward_target :
    (∀ (r : ℚ) (p : Bool), targetRadius p ≤ r →
        targetRadius p ≤ radiusStep r p ∧ radiusStep r p ≤ r) ∧
    (∀ (r : ℚ) (p : Bool), r ≤ targetRadius p →
        r ≤ radiusStep r p ∧ radiusStep r p ≤ targetRadius p) ∧
    (∀ n : ℕ, 12 < radiusRun (fun _ => true) n ∧
        radiusRun (fun _ => true) (n + 1) < radiusRun (fun _ => true) n) ∧
    (∀ n : ℕ, radiusRun (fun _ => true) n - 12 = 28 * (97 / 100) ^ n) := by
  refine ⟨?_, ?_, ?_, radiusRun_true_sub⟩
  · intro r p h
    have h1 := radiusStep_sub_target r p
    have h2 := radiusStep_sub_self r p
    constructor <;> nlinarith
  · intro r p h
    have h1 := radiusStep_sub_target r p
    have h2 := radiusStep_sub_self r p
    constructor <;> nlinarith
  · intro n
    have hn := radiusRun_true_sub n
    have hsn := radiusRun_true_sub (n + 1)
    have hq : (0 : ℚ) < (97 / 100) ^ n := by positivity
    have hlt : (28 : ℚ) * (97 / 100) ^ (n + 1) < 28 * (97 / 100) ^ n := by
      rw [pow_succ]
      nlinarith
    constructor <;> nlinarith

/-- Witness for C1 at a concrete radius: from 20 with `pinched = true`,
one step stays at or above the target 12 and does not increase. -/
theorem radius_monotone_toward_target_witness :
    targetRadius true ≤ radiusStep 20 true ∧ radiusStep 20 true ≤ 20 :=
  radius_monotone_toward_target.1 20 true (by norm_num [targetRadius])

/-- Claim C10: starting from 40, whatever the per-frame `pinched` values,
`currentRadius` remains in the closed interval `[12, 40]` after every frame,
each update being a convex combination of the current value and a target in
`{12, 40}`. -/
theorem radius_run_mem_Icc (ps : ℕ → Bool) (n : ℕ) :
    12 ≤ radiusRun ps n ∧ radiusRun ps n ≤ 40 := by
  induction n with
  | zero => norm_num [radiusRun]
  | succ n ih =>
      have h1 := radiusStep_sub_target (radiusRun ps n) (ps n)
      have h2 := radiusStep_sub_self (radiusRun ps n) (ps n)
      have ht : targetRadius (ps n) = 12 ∨ targetRadius (ps n) = 40 := by
        cases h : ps n <;> simp [targetRadius]
      show 12 ≤ radiusStep (radiusRun ps n) (ps n) ∧
          radiusStep (radiusRun ps n) (ps n) ≤ 40
      rcases ht with ht | ht <;> rw [ht] at h1 h2 <;>
        exact ⟨by nlinarith [ih.1, ih.2], by nlinarith [ih.1, ih.2]⟩

/-- Exact three-component vectors (`THREE.Vector3` values carried by the
control core). -/
structure Vec3 where
  x : ℚ
  y : ℚ
  z : ℚ
deriving DecidableEq

instance : Add Vec3 := ⟨fun a b => ⟨a.x + b.x, a.y + b.y, a.z + b.z⟩⟩

instance : Sub Vec3 := ⟨fun a b => ⟨a.x - b.x, a.y - b.y, a.z - b.z⟩⟩

instance : Zero Vec3 := ⟨⟨0, 0, 0⟩⟩

instance : SMul ℚ Vec3 := ⟨fun c v => ⟨c * v.x, c * v.y, c * v.z⟩⟩

/-- A live probe as stored by `ProbeSystem`: `{ id, pos }`. -/
structure ProbeEntry where
  id : ℕ
  pos : Vec3
deriving DecidableEq

/-- Probe spawn position: `camera.position.clone()` followed by
`spawnPos.y -= 1.0`. -/
def spawnPos (camPos : Vec3) : Vec3 := ⟨camPos.x, camPos.y - 1, camPos.z⟩

/-- One run of the `ProbeSystem` effect body on an observed `isPinching`:
`if (isPinching && !prevPinch.current)` append one probe at `spawnPos`;
in all cases `prevPinch.current = isPinching` afterwards. Returns the probe
collection and the updated `prevPinch` ref. -/
def probeEffect (isPinching prevPinch : Bool) (probes : List ProbeEntry)
    (camPos : Vec3) (newId : ℕ) : List ProbeEntry × Bool :=
  if isPinching && !prevPinch then
    (probes ++ [⟨newId, spawnPos camPos⟩], isPinching)
  else
    (probes, isPinching)

/-- One observation delivered to the spawner: the `isPinching` value together
with the camera position and the fresh id available at that observation. -/
structure ProbeObs where
  pinch : Bool
  camPos : Vec3
  newId : ℕ

/-- Deliver a sequence of observations to the spawner, threading the
`prevPinch` ref (initially `useRef(false)`) and the probe collection. -/
def probeRun (obs : List ProbeObs) (prev : Bool) (probes : List ProbeEntry) :
    List ProbeEntry × Bool :=
  match obs with
  | [] => (probes, prev)
  | o :: rest =>
      probeRun rest (probeEffect o.pinch prev probes o.camPos o.newId).2
        (probeEffect o.pinch prev probes o.camPos o.newId).1

/-- Stated from the spec for comparison: the number of rising edges
(previous value false, current true) in a sequence of pinched observations,
given the value `prev` preceding the first observation. -/
def specRisingEdges (prev : Bool) : List Bool → ℕ
  | [] => 0
  | b :: rest => (if b && !prev then 1 else 0) + specRisingEdges b rest

lemma probeRun_length (obs : List ProbeObs) :
    ∀ (prev : Bool) (probes : List ProbeEntry),
      ((probeRun obs prev probes).1).length =
        probes.length + specRisingEdges prev (obs.map ProbeObs.pinch) := by
  induction obs with
  | nil => intro prev probes; simp [probeRun, specRisingEdges]
  | cons o rest ih =>
      intro prev probes
      cases hp : o.pinch <;> cases hv : prev <;>
          simp [probeRun, probeEffect, hp, hv, ih, specRisingEdges]
      omega

/-- Claim C2: over any observation sequence the spawner adds exactly one probe
per rising edge of `pinched` (the probe collection grows by the number of
false-to-true transitions); a sustained-true observation and a current-false
observation (in particular a true-to-false transition) add nothing, and a
rising edge appends exactly the one new probe at the spawn position. -/
theorem probe_spawn_per_rising_edge :
    (∀ (obs : List ProbeObs) (prev : Bool) (probes : List ProbeEntry),
        ((probeRun obs prev probes).1).length =
          probes.length + specRisingEdges prev (obs.map ProbeObs.pinch)) ∧
    (∀ (probes : List ProbeEntry) (camPos : Vec3) (i : ℕ),
        (probeEffect true true probes camPos i).1 = probes) ∧
    (∀ (prev : Bool) (probes : List ProbeEntry) (camPos : Vec3) (i : ℕ),
        (probeEffect false prev probes camPos i).1 = probes) ∧
    (∀ (probes : List ProbeEntry) (camPos : Vec3) (i : ℕ),
        (probeEffect true false probes camPos i).1 =
          probes ++ [⟨i, spawnPos camPos⟩]) := by
  refine ⟨probeRun_length, ?_, ?_, ?_⟩
  · intro probes camPos i; simp [probeEffect]
  · intro prev probes camPos i; simp [probeEffect]
  · intro probes camPos i; simp [probeEffect]

/-- A normalized hand landmark produced by the detector (x, y, z components). -/
structure Landmark where
  x : ℚ
  y : ℚ
  z : ℚ
deriving DecidableEq

/-- One detected hand: the detector's 21 landmarks. -/
def Hand := Fin 21 → Landmark

/-- `landmarks[4]`, the thumb tip. -/
def thumbTip (h : Hand) : Landmark := h 4

/-- `landmarks[8]`, the index fingertip. -/
def indexTip (h : Hand) : Landmark := h 8

/-- The squared pinch distance
`Math.hypot(indexTip.x - thumbTip.x, indexTip.y - thumbTip.y) ^ 2`; the
source compares the hypotenuse against a threshold, embedded below as the
equivalent comparison of squares (see `pinched_iff_planar_distance`). -/
def pinchDistSq (h : Hand) : ℚ :=
  ((indexTip h).x - (thumbTip h).x) ^ 2 + ((indexTip h).y - (thumbTip h).y) ^ 2

/-- HandController.tsx: `const pinched = distance < 0.05`. -/
def pinchedMain (h : Hand) : Bool := decide (pinchDistSq h < (5 / 100) ^ 2)

/-- The second HandController variant: `const pinched = distance < 0.1`. -/
def pinchedDebug (h : Hand) : Bool := decide (pinchDistSq h < (1 / 10) ^ 2)

/-- The InputSignal emitted for a detected hand (HandController.tsx):
`x = (1 - indexTip.x) * 100`, `y = indexTip.y * 100`, `pinched`. -/
def handEmissionMain (h : Hand) : InputSignal :=
  ⟨(1 - (indexTip h).x) * 100, (indexTip h).y * 100, pinchedMain h⟩

/-- The InputSignal emitted for a detected hand (second variant). -/
def handEmissionDebug (h : Hand) : InputSignal :=
  ⟨(1 - (indexTip h).x) * 100, (indexTip h).y * 100, pinchedDebug h⟩

/-- Stated from the spec for comparison: the squared Euclidean distance
between two landmarks in the full normalized landmark space (x, y and z). -/
def specDist3Sq (a b : Landmark) : ℚ :=
  (b.x - a.x) ^ 2 + (b.y - a.y) ^ 2 + (b.z - a.z) ^ 2

lemma sqrt_lt_iff_sq_lt (q t : ℚ) (ht : 0 < t) :
    Real.sqrt (q : ℝ) < (t : ℝ) ↔ q < t ^ 2 := by
  rw [Real.sqrt_lt' (by exact_mod_cast ht)]
  exact_mod_cast Iff.rfl

/-- A hand whose thumb tip and index tip coincide in x and y but differ in z
by one half. -/
def zHand : Hand := fun i => if i = 8 then ⟨0, 0, 1 / 2⟩ else ⟨0, 0, 0⟩

/-- Claim C3 counterexample: the pinch test reads only the x and y landmark
components. For a hand whose thumb and index tips differ only in z by 1/2,
both variants emit `pinched = true`, yet the Euclidean distance in the full
normalized landmark space is 1/2, which is at or above both thresholds, so
the claim's `pinched = (distance < threshold)` fails here. -/
theorem pinched_ignores_z_counterexample :
    pinchedMain zHand = true ∧ pinchedDebug zHand = true ∧
    Real.sqrt ((specDist3Sq (thumbTip zHand) (indexTip zHand) : ℚ) : ℝ) = 1 / 2 ∧
    ¬((1 : ℝ) / 2 < 5 / 100) ∧ ¬((1 : ℝ) / 2 < 1 / 10) := by
  have h4 : thumbTip zHand = ⟨0, 0, 0⟩ := rfl
  have h8 : indexTip zHand = ⟨0, 0, 1 / 2⟩ := rfl
  have hm : pinchedMain zHand = true := by
    unfold pinchedMain pinchDistSq
    rw [h4, h8]
    simp only [decide_eq_true_eq]
    norm_num
  have hd : pinchedDebug zHand = true := by
    unfold pinchedDebug pinchDistSq
    rw [h4, h8]
    simp only [decide_eq_true_eq]
    norm_num
  refine ⟨hm, hd, ?_, by norm_num, by norm_num⟩
  rw [h4, h8]
  have : (((specDist3Sq ⟨0, 0, 0⟩ ⟨0, 0, 1 / 2⟩ : ℚ)) : ℝ) = (1 / 2 : ℝ) ^ 2 := by
    norm_num [specDist3Sq]
  rw [this, Real.sqrt_sq (by norm_num)]

/-- Claim C3 amended: for every detected hand, the emitted pinched flag is
exactly the strict comparison of the planar (x, y) Euclidean distance between
thumb tip and index tip against the variant's threshold (0.05 in
HandController.tsx, 0.1 in the second variant); distance at or above the
threshold yields `pinched = false`. -/
theorem pinched_iff_planar_distance (h : Hand) :
    (pinchedMain h = true ↔ Real.sqrt ((pinchDistSq h : ℚ) : ℝ) < 5 / 100) ∧
    (pinchedDebug h = true ↔ Real.sqrt ((pinchDistSq h : ℚ) : ℝ) < 1 / 10) ∧
    (pinchedMain h = false ↔ (5 : ℝ) / 100 ≤ Real.sqrt ((pinchDistSq h : ℚ) : ℝ)) ∧
    (pinchedDebug h = false ↔ (1 : ℝ) / 10 ≤ Real.sqrt ((pinchDistSq h : ℚ) : ℝ)) ∧
    (handEmissionMain h).pinched = pinchedMain h ∧
    (handEmissionDebug h).pinched = pinchedDebug h := by
  have m5 : Real.sqrt ((pinchDistSq h : ℚ) : ℝ) < ((5 / 100 : ℚ) : ℝ) ↔
      pinchDistSq h < (5 / 100) ^ 2 := sqrt_lt_iff_sq_lt _ _ (by norm_num)
  have m1 : Real.sqrt ((pinchDistSq h : ℚ) : ℝ) < ((1 / 10 : ℚ) : ℝ) ↔
      pinchDistSq h < (1 / 10) ^ 2 := sqrt_lt_iff_sq_lt _ _ (by norm_num)
  push_cast at m5 m1
  refine ⟨?_, ?_, ?_, ?_, rfl, rfl⟩
  · rw [pinchedMain, decide_eq_true_eq, m5]
  · rw [pinchedDebug, decide_eq_true_eq, m1]
  · rw [pinchedMain, decide_eq_false_iff_not, ← m5, not_lt]
  · rw [pinchedDebug, decide_eq_false_iff_not, ← m1, not_lt]

/-- Witness for the amended C3 at the concrete hand `zHand`. -/
theorem pinched_iff_planar_distance_witness :
    pinchedMain zHand = true ↔ Real.sqrt ((pinchDistSq zHand : ℚ) : ℝ) < 5 / 100 :=
  (pinched_iff_planar_distance zHand).1

/-- One iteration of `predictWebcam` in HandController.tsx (camera mode). The
`detectForVideo` call is not wrapped in a try/catch, so a throwing frame
propagates the exception (`Except.error`) and never reaches the trailing
`requestAnimationFrame`; otherwise the result is the optional emission for
the first detected hand together with the reschedule flag. -/
def predictStepMain (outcome : Except Unit (List Hand)) :
    Except Unit (Option InputSignal × Bool) :=
  match outcome with
  | .error e => .error e
  | .ok hands =>
      match hands.head? with
      | some h => .ok (some (handEmissionMain h), true)
      | none => .ok (none, true)

/-- One iteration of `predictWebcam` in the second variant: the detect call
and the emission sit inside `try { ... } catch (e) { /* ignore */ }` and the
`requestAnimationFrame(predictWebcam)` call follows the catch, so a throwing
frame emits nothing and still reschedules. -/
def predictStepDebug (outcome : Except Unit (List Hand)) :
    Option InputSignal × Bool :=
  match outcome with
  | .error _ => (none, true)
  | .ok hands =>
      match hands.head? with
      | some h => (some (handEmissionDebug h), true)
      | none => (none, true)

/-- Claim C5 counterexample: in the HandController.tsx variant a frame whose
inference call throws is not swallowed — the step propagates the exception
instead of producing the claimed no-emission-and-reschedule outcome. -/
theorem inference_throw_not_swallowed_counterexample :
    predictStepMain (Except.error ()) = Except.error () ∧
    predictStepMain (Except.error ()) ≠ Except.ok (none, true) := by
  refine ⟨rfl, ?_⟩
  intro h
  exact Except.noConfusion h

/-- Claim C5 amended: in the second HandController variant a throwing
inference frame is swallowed, the InputSignal is not updated that frame, and
the loop still reschedules (and its loop reschedules on every non-throwing
frame too); in the HandController.tsx variant the inference call is unguarded,
so a throwing frame propagates the exception and the reschedule is not
reached. -/
theorem inference_throw_behavior :
    (∀ e : Unit, predictStepDebug (Except.error e) = (none, true)) ∧
    (∀ hands : List Hand, (predictStepDebug (Except.ok hands)).2 = true) ∧
    (∀ e : Unit, predictStepMain (Except.error e) = Except.error e) := by
  refine ⟨fun e => rfl, fun hands => ?_, fun e => rfl⟩
  cases hands <;> rfl

/-- Witness for the amended C5 at a concrete throwing frame. -/
theorem inference_throw_behavior_witness :
    predictStepDebug (Except.error ()) = (none, true) :=
  inference_throw_behavior.1 ()

/-- The mouse-fallback listener state in HandController.tsx: the `cursor`
state and the `pinchRef` ref. -/
structure MouseState where
  cx : ℚ
  cy : ℚ
  pinch : Bool
deriving DecidableEq

/-- A pointer event delivered to the fallback listeners; a move carries the
client coordinates and the window dimensions. -/
inductive PointerEvent
  | move (clientX clientY innerWidth innerHeight : ℚ)
  | down
  | up

/-- The fallback event handlers of HandController.tsx: `handleMouseMove`
normalizes the position to percentages, stores it in `cursor` and emits it at
the current pinch state; `handleMouseDown` sets the pinch true and emits at
the current cursor; `handleMouseUp` sets it false and emits at the current
cursor. Returns the new state and the emissions of the handler. -/
def mouseHandle (s : MouseState) : PointerEvent → MouseState × List InputSignal
  | .move clientX clientY w h =>
      ⟨⟨clientX / w * 100, clientY / h * 100, s.pinch⟩,
        [⟨clientX / w * 100, clientY / h * 100, s.pinch⟩]⟩
  | .down => ⟨⟨s.cx, s.cy, true⟩, [⟨s.cx, s.cy, true⟩]⟩
  | .up => ⟨⟨s.cx, s.cy, false⟩, [⟨s.cx, s.cy, false⟩]⟩

/-- Deliver a sequence of pointer events to the fallback listeners,
concatenating the emissions in order. -/
def mouseRun (s : MouseState) : List PointerEvent → MouseState × List InputSignal
  | [] => (s, [])
  | e :: rest =>
      ((mouseRun (mouseHandle s e).1 rest).1,
        (mouseHandle s e).2 ++ (mouseRun (mouseHandle s e).1 rest).2)

/-- Stated from the spec for comparison: the number of true-to-false edges
between consecutive entries of a boolean trace. -/
def specFallingEdges : List Bool → ℕ
  | a :: b :: rest => (if a && !b then 1 else 0) + specFallingEdges (b :: rest)
  | _ => 0

/-- Claim C9: in mouse-fallback mode, a pointer-down followed by a pointer-up
with no move in between yields exactly the two emissions
`(cursor.x, cursor.y, true)` then `(cursor.x, cursor.y, false)` — two
InputSignals forming exactly one true-to-false pinched edge, both carrying
the cursor position current at pointer-down. -/
theorem mouse_down_up_one_falling_edge (s : MouseState) :
    (mouseRun s [PointerEvent.down, PointerEvent.up]).2 =
      [⟨s.cx, s.cy, true⟩, ⟨s.cx, s.cy, false⟩] ∧
    ((mouseRun s [PointerEvent.down, PointerEvent.up]).2).length = 2 ∧
    specFallingEdges
      (((mouseRun s [PointerEvent.down, PointerEvent.up]).2).map
        InputSignal.pinched) = 1 := by
  refine ⟨rfl, rfl, rfl⟩

/-- Witness for C9 at the initial cursor `(50, 50)` with pinch false. -/
theorem mouse_down_up_one_falling_edge_witness :
    (mouseRun ⟨50, 50, false⟩ [PointerEvent.down, PointerEvent.up]).2 =
      [⟨50, 50, true⟩, ⟨50, 50, false⟩] :=
  (mouse_down_up_one_falling_edge ⟨50, 50, false⟩).1

/-- A `setTargetAtTime(target, now, timeConstant)` instruction: a
fire-and-forget exponential approach toward `target` with the given time
constant in seconds. -/
structure RampCmd where
  target : ℚ
  timeConstant : ℚ
deriving DecidableEq

/-- The three ramp instructions set by the AudioController control effect:
master gain, lowpass filter cutoff frequency, oscillator base pitch. -/
structure RampSet where
  gain : RampCmd
  cutoff : RampCmd
  pitch : RampCmd
deriving DecidableEq

/-- The AudioController control-effect body: for `pinched = true`,
`gain.gain.setTargetAtTime(0.4, now, 0.5)`,
`filter.frequency.setTargetAtTime(800, now, 0.5)`,
`osc.frequency.setTargetAtTime(65, now, 1.0)`; for `pinched = false`,
`gain 0.1 (τ 1.0)`, `cutoff 100 (τ 1.0)`, `pitch 55 (τ 1.0)`. -/
def audioTargets (pinched : Bool) : RampSet :=
  if pinched then
    ⟨⟨4 / 10, 5 / 10⟩, ⟨800, 5 / 10⟩, ⟨65, 1⟩⟩
  else
    ⟨⟨1 / 10, 1⟩, ⟨100, 1⟩, ⟨55, 1⟩⟩

/-- Claim C4: the engaged targets are exactly gain 0.4, cutoff 800 Hz and
pitch 65 Hz; the idle targets exactly gain 0.1, cutoff 100 Hz and pitch
55 Hz; and every ramp is an exponential approach whose time constant lies
between 0.5 and 1.0 seconds. -/
theorem audio_targets_values :
    (audioTargets true).gain.target = 4 / 10 ∧
    (audioTargets true).cutoff.target = 800 ∧
    (audioTargets true).pitch.target = 65 ∧
    (audioTargets false).gain.target = 1 / 10 ∧
    (audioTargets false).cutoff.target = 100 ∧
    (audioTargets false).pitch.target = 55 ∧
    (∀ p : Bool,
      (5 / 10 ≤ (audioTargets p).gain.timeConstant ∧
          (audioTargets p).gain.timeConstant ≤ 1) ∧
      (5 / 10 ≤ (audioTargets p).cutoff.timeConstant ∧
          (audioTargets p).cutoff.timeConstant ≤ 1) ∧
      (5 / 10 ≤ (audioTargets p).pitch.timeConstant ∧
          (audioTargets p).pitch.timeConstant ≤ 1)) := by
  refine ⟨rfl, rfl, rfl, rfl, rfl, rfl, ?_⟩
  intro p
  cases p <;> norm_num [audioTargets]

/-- React effect scheduling with dependency list `[pinched]`, from the value
observed at the previous render: the body runs again only at a render whose
`pinched` differs. Returns the ramp sets applied, in order. -/
def audioApplicationsFrom (prev : Bool) : List Bool → List RampSet
  | [] => []
  | b :: bs =>
      if b = prev then audioApplicationsFrom prev bs
      else audioTargets b :: audioApplicationsFrom b bs

/-- The ramp sets applied over a whole render sequence: the effect body runs
at the first render (mount) and then on changes only. -/
def audioApplications : List Bool → List RampSet
  | [] => []
  | b :: bs => audioTargets b :: audioApplicationsFrom b bs

/-- Claim C8 counterexample: over the two-observation sequence
`[false, false]` the controller applies its targets once (at mount), not
once per observation as the claim states — the sustained second observation
does not re-run the effect body. -/
theorem audio_not_reapplied_when_unchanged_counterexample :
    (audioApplications [false, false]).length = 1 ∧
    ([false, false] : List Bool).length = 2 := by
  constructor <;> rfl

lemma audioApplicationsFrom_getLastD (l : List Bool) :
    ∀ prev : Bool, (audioApplicationsFrom prev l).getLastD (audioTargets prev) =
      audioTargets (l.getLastD prev) := by
  induction l with
  | nil => intro prev; rfl
  | cons b bs ih =>
      intro prev
      by_cases hb : b = prev
      · subst hb
        rw [audioApplicationsFrom, if_pos rfl, ih b, List.getLastD_cons]
      · rw [audioApplicationsFrom]
        simp only [if_neg hb]
        rw [List.getLastD_cons, List.getLastD_cons, ih b]

/-- Claim C8 amended: the effect body itself is level-triggered (its targets
depend only on the current `pinched` value, idempotently), but React re-runs
it only at the first observation and at observations whose value differs
from the previous one; an unchanged observation is skipped. Nevertheless,
after every observation the most recently applied ramp set is exactly the
one determined by the current `pinched` level, so the applied state is as if
the targets were re-applied at every observation. -/
theorem audio_level_determines_last_applied :
    (∀ (prev : Bool) (bs : List Bool),
        audioApplicationsFrom prev (prev :: bs) = audioApplicationsFrom prev bs) ∧
    (∀ (b : Bool) (bs : List Bool),
        audioApplicationsFrom (!b) (b :: bs) =
          audioTargets b :: audioApplicationsFrom b bs) ∧
    (∀ (b : Bool) (bs : List Bool),
        (audioApplications (b :: bs)).getLastD (audioTargets b) =
          audioTargets (bs.getLastD b)) := by
  refine ⟨?_, ?_, ?_⟩
  · intro prev bs
    rw [audioApplicationsFrom, if_pos rfl]
  · intro b bs
    rw [audioApplicationsFrom, if_neg (by cases b <;> simp)]
  · intro b bs
    rw [audioApplications, List.getLastD_cons, audioApplicationsFrom_getLastD]

@[ext] lemma Vec3.ext {a b : Vec3} (hx : a.x = b.x) (hy : a.y = b.y)
    (hz : a.z = b.z) : a = b := by
  cases a; cases b; simp_all

@[simp] lemma Vec3.add_x (a b : Vec3) : (a + b).x = a.x + b.x := rfl

@[simp] lemma Vec3.add_y (a b : Vec3) : (a + b).y = a.y + b.y := rfl

@[simp] lemma Vec3.add_z (a b : Vec3) : (a + b).z = a.z + b.z := rfl

@[simp] lemma Vec3.sub_x (a b : Vec3) : (a - b).x = a.x - b.x := rfl

@[simp] lemma Vec3.sub_y (a b : Vec3) : (a - b).y = a.y - b.y := rfl

@[simp] lemma Vec3.sub_z (a b : Vec3) : (a - b).z = a.z - b.z := rfl

@[simp] lemma Vec3.smul_x (c : ℚ) (v : Vec3) : (c • v).x = c * v.x := rfl

@[simp] lemma Vec3.smul_y (c : ℚ) (v : Vec3) : (c • v).y = c * v.y := rfl

@[simp] lemma Vec3.smul_z (c : ℚ) (v : Vec3) : (c • v).z = c * v.z := rfl

@[simp] lemma Vec3.zero_x : (0 : Vec3).x = 0 := rfl

@[simp] lemma Vec3.zero_y : (0 : Vec3).y = 0 := rfl

@[simp] lemma Vec3.zero_z : (0 : Vec3).z = 0 := rfl

/-- Componentwise `THREE.Vector3.lerp(v, alpha)`. -/
def lerpV (a b : Vec3) (t : ℚ) : Vec3 := ⟨lerp a.x b.x t, lerp a.y b.y t, lerp a.z b.z t⟩

/-- The outcome of one `useFrame` tick of `CameraRig`: the updated radius
ref, the new camera position, and the look-at target. -/
structure CamFrame where
  radius : ℚ
  camPos : Vec3
  lookAt : Vec3
deriving DecidableEq

/-- One `useFrame` tick of `CameraRig` (source order): the pinch-gated target
radius, `currentRadius = lerp(currentRadius, targetRadius, 0.03)`,
`theta = (input.x - 50) * 0.1 * -1`,
`phi = mapLinear(input.y, 0, 100, 0.1, 3.0)`, the Cartesian conversion
`(r sin phi sin theta, r cos phi, r sin phi cos theta)`,
`camera.position.lerp(vec.set(x, y, z), 0.1)` and `camera.lookAt(0, 0, 0)`.
`sin`/`cos` abstract the host's `Math.sin`/`Math.cos`. -/
def cameraRigFrame (sin cos : ℚ → ℚ) (input : InputSignal) (r : ℚ)
    (camPos : Vec3) : CamFrame :=
  let targetR : ℚ := if input.pinched then 12 else 40
  let r2 := lerp r targetR (3 / 100)
  let theta := (input.x - 50) * (1 / 10) * (-1)
  let phi := mapLinear input.y 0 100 (1 / 10) 3
  ⟨r2,
    lerpV camPos ⟨r2 * sin phi * sin theta, r2 * cos phi, r2 * sin phi * cos theta⟩
      (1 / 10),
    0⟩

/-- Stated from the spec for comparison (claim C7): yaw
`theta = -(x - 50) * 0.1`; polar angle `phi` mapping `y` linearly from
`[0, 100]` to `[0.1, 3.0]`; the standard y-up spherical-to-Cartesian
conversion of `(currentRadius, theta, phi)`; the camera position moved by a
lerp of factor 0.1 toward that target; the camera looking at the world
origin. Returns the new camera position and the look-at target. -/
def specCameraFrame (sin cos : ℚ → ℚ) (input : InputSignal) (r2 : ℚ)
    (camPos : Vec3) : Vec3 × Vec3 :=
  let theta := -(input.x - 50) * (1 / 10)
  let phi := 1 / 10 + input.y * (3 - 1 / 10) / 100
  let target : Vec3 :=
    ⟨r2 * sin phi * sin theta, r2 * cos phi, r2 * sin phi * cos theta⟩
  (camPos + ((1 : ℚ) / 10) • (target - camPos), 0)

/-- Claim C7: each rendered frame, `CameraRig` computes the yaw
`theta = -(x - 50) * 0.1`, the polar angle `phi` by mapping `y` linearly from
`[0, 100]` to `[0.1, 3.0]`, converts `(currentRadius, theta, phi)` to
Cartesian coordinates by the standard y-up spherical conversion, moves the
camera by a factor-0.1 lerp toward that point, and looks at the world
origin — i.e., the embedded frame computation agrees with the spec-side
formulation for every input, radius and camera position (the radius itself
being updated per `radiusStep`). -/
theorem camera_rig_frame_matches_spec (sin cos : ℚ → ℚ) (input : InputSignal)
    (r : ℚ) (camPos : Vec3) :
    (cameraRigFrame sin cos input r camPos).radius = radiusStep r input.pinched ∧
    (cameraRigFrame sin cos input r camPos).camPos =
      (specCameraFrame sin cos input (radiusStep r input.pinched) camPos).1 ∧
    (cameraRigFrame sin cos input r camPos).lookAt = 0 := by
  have htheta : (input.x - 50) * (1 / 10) * (-1) = -(input.x - 50) * (1 / 10) := by
    ring
  have hphi : mapLinear input.y 0 100 (1 / 10) 3 =
      1 / 10 + input.y * (3 - 1 / 10) / 100 := by
    unfold mapLinear; ring
  refine ⟨rfl, ?_, rfl⟩
  show lerpV camPos
      ⟨radiusStep r input.pinched * sin (mapLinear input.y 0 100 (1 / 10) 3) *
          sin ((input.x - 50) * (1 / 10) * (-1)),
        radiusStep r input.pinched * cos (mapLinear input.y 0 100 (1 / 10) 3),
        radiusStep r input.pinched * sin (mapLinear input.y 0 100 (1 / 10) 3) *
          cos ((input.x - 50) * (1 / 10) * (-1))⟩ (1 / 10) =
    (specCameraFrame sin cos input (radiusStep r input.pinched) camPos).1
  rw [htheta, hphi]
  unfold specCameraFrame
  ext <;> simp [lerpV, lerp] <;> ring

/-- The dot product of two vectors. -/
def dot (a b : Vec3) : ℚ := a.x * b.x + a.y * b.y + a.z * b.z

/-- The squared length of a vector, so that `v.length() = √(sqNorm v)`. -/
def sqNorm (v : Vec3) : ℚ := dot v v

/-- One `useFrame` move of a probe:
`position.add(direction.clone().multiplyScalar(25 * delta))`. -/
def probeStep (pos dir : Vec3) (delta : ℚ) : Vec3 := pos + (25 * delta) • dir

/-- The probe collision check after the move: `position.length() < 3.0`,
embedded as the comparison of squares (see `probeHit_iff_dist`). -/
def probeHit (pos : Vec3) : Bool := decide (sqNorm pos < 9)

/-- The probe position across frames, from its spawn position along its fixed
spawn-time direction, with per-frame deltas `δ`. -/
def probePath (start dir : Vec3) (δ : ℕ → ℚ) : ℕ → Vec3
  | 0 => start
  | n + 1 => probeStep (probePath start dir δ n) dir (δ n)

/-- `removeProbe(id)`: `setProbes(prev => prev.filter(p => p.id !== id))`. -/
def removeProbe (i : ℕ) (probes : List ProbeEntry) : List ProbeEntry :=
  probes.filter (fun p => p.id ≠ i)

/-- The distance flown after `n` frames at speed 25. -/
def travelled (δ : ℕ → ℚ) : ℕ → ℚ
  | 0 => 0
  | n + 1 => travelled δ n + 25 * δ n

lemma sqNorm_nonneg (v : Vec3) : 0 ≤ sqNorm v := by
  have hx := mul_self_nonneg v.x
  have hy := mul_self_nonneg v.y
  have hz := mul_self_nonneg v.z
  unfold sqNorm dot
  linarith

lemma probeHit_iff_dist (p : Vec3) :
    probeHit p = true ↔ Real.sqrt ((sqNorm p : ℚ) : ℝ) < 3 := by
  have h := sqrt_lt_iff_sq_lt (sqNorm p) 3 (by norm_num)
  norm_num at h
  rw [probeHit, decide_eq_true_eq]
  exact h.symm

lemma sqNorm_add_smul (a b : Vec3) (t : ℚ) :
    sqNorm (a + t • b) = sqNorm a + 2 * t * dot a b + t ^ 2 * sqNorm b := by
  simp [sqNorm, dot]
  ring

lemma dot_smul_zero_sub (a : Vec3) (k : ℚ) :
    dot a (k • ((0 : Vec3) - a)) = -(k * sqNorm a) := by
  simp [dot, sqNorm]
  ring

lemma sqNorm_smul_zero_sub (a : Vec3) (k : ℚ) :
    sqNorm (k • ((0 : Vec3) - a)) = k ^ 2 * sqNorm a := by
  simp [sqNorm, dot]
  ring

lemma probePath_eq_affine (start dir : Vec3) (δ : ℕ → ℚ) (n : ℕ) :
    probePath start dir δ n = start + (travelled δ n) • dir := by
  induction n with
  | zero =>
      show start = start + (travelled δ 0) • dir
      ext <;> simp [travelled]
  | succ n ih =>
      show probeStep (probePath start dir δ n) dir (δ n) = _
      rw [probeStep, ih]
      show start + (travelled δ n) • dir + (25 * δ n) • dir =
        start + (travelled δ n + 25 * δ n) • dir
      ext <;> simp <;> ring

lemma sqNorm_probePath (start dir : Vec3) (k : ℚ) (δ : ℕ → ℚ)
    (hk : 0 < k) (hdir : dir = k • ((0 : Vec3) - start)) (hunit : sqNorm dir = 1)
    (n : ℕ) :
    sqNorm (probePath start dir δ n) = (1 / k - travelled δ n) ^ 2 := by
  have hk0 : k ≠ 0 := ne_of_gt hk
  have hsn : sqNorm start = 1 / k ^ 2 := by
    have h := sqNorm_smul_zero_sub start k
    rw [← hdir, hunit] at h
    field_simp
    nlinarith [h]
  have hdot : dot start dir = -(1 / k) := by
    rw [hdir, dot_smul_zero_sub, hsn]
    field_simp
    ring
  rw [probePath_eq_affine, sqNorm_add_smul, hsn, hdot, hunit]
  field_simp
  ring

lemma probe_signed_dist_ge (start dir : Vec3) (k : ℚ) (δ : ℕ → ℚ)
    (hk : 0 < k) (hdir : dir = k • ((0 : Vec3) - start)) (hunit : sqNorm dir = 1)
    (hfar : 3 ≤ 1 / k) (hδ : ∀ n, 0 < δ n ∧ 25 * δ n < 6) :
    ∀ n : ℕ, (∀ m, m < n → probeHit (probePath start dir δ (m + 1)) = false) →
      3 ≤ 1 / k - travelled δ n := by
  intro n
  induction n with
  | zero =>
      intro _
      simpa [travelled] using hfar
  | succ n ih =>
      intro hlive
      have h3 : 3 ≤ 1 / k - travelled δ n :=
        ih (fun m hm => hlive m (Nat.lt_succ_of_lt hm))
      have h9 : 9 ≤ sqNorm (probePath start dir δ (n + 1)) := by
        have hhit := hlive n (Nat.lt_succ_self n)
        rw [probeHit, decide_eq_false_iff_not, not_lt] at hhit
        exact hhit
      rw [sqNorm_probePath start dir k δ hk hdir hunit (n + 1)] at h9
      have hstep := hδ n
      simp only [travelled] at h9 ⊢
      have hgt : -3 < 1 / k - (travelled δ n + 25 * δ n) := by
        linarith [hstep.2]
      nlinarith [h9, hgt]

/-- Claim C6 counterexample: take the probe spawned at `(4, 0, 0)`; its
source-computed flight direction `normalize((0,0,0) - start)` is exactly
`(-1, 0, 0)`. On a frame with `delta = 2/5` the move of `25 * delta` crosses
the origin: the distance to the origin rises from 4 to 6, and the probe is
not removed (its distance is not below 3.0), refuting both strict decrease
and guaranteed removal as stated. -/
theorem probe_overshoot_counterexample :
    ((1 : ℚ) / 4) • ((0 : Vec3) - ⟨4, 0, 0⟩) = (⟨-1, 0, 0⟩ : Vec3) ∧
    sqNorm (⟨-1, 0, 0⟩ : Vec3) = 1 ∧
    Real.sqrt ((sqNorm (⟨4, 0, 0⟩ : Vec3) : ℚ) : ℝ) = 4 ∧
    probeStep ⟨4, 0, 0⟩ ⟨-1, 0, 0⟩ (2 / 5) = (⟨-6, 0, 0⟩ : Vec3) ∧
    Real.sqrt ((sqNorm (⟨-6, 0, 0⟩ : Vec3) : ℚ) : ℝ) = 6 ∧
    probeHit (⟨-6, 0, 0⟩ : Vec3) = false := by
  refine ⟨by ext <;> norm_num, by norm_num [sqNorm, dot], ?_, ?_, ?_, ?_⟩
  · rw [show ((sqNorm (⟨4, 0, 0⟩ : Vec3) : ℚ) : ℝ) = (4 : ℝ) ^ 2 by
      norm_num [sqNorm, dot]]
    rw [Real.sqrt_sq (by norm_num)]
  · rw [probeStep]
    ext <;> norm_num
  · rw [show ((sqNorm (⟨-6, 0, 0⟩ : Vec3) : ℚ) : ℝ) = (6 : ℝ) ^ 2 by
      norm_num [sqNorm, dot]]
    rw [Real.sqrt_sq (by norm_num)]
  · rw [probeHit, decide_eq_false_iff_not, not_lt]
    norm_num [sqNorm, dot]

/-- Claim C6 amended: consider a probe whose flight direction is the unit
vector from its spawn position toward the origin (`dir = k • (0 - start)`
with `k > 0` and `sqNorm dir = 1`, so the spawn distance is `1/k`), spawned
at least 3 units out, and whose per-frame steps `25 * δ` are positive and
below 6 units (so a single frame cannot jump across the removal shell; true
at real frame rates). Then: (1) while the probe has not yet satisfied the
removal check, its distance to the origin is strictly decreasing each frame;
(2) the removal check fires exactly when its distance to the origin drops
below 3.0; (3) `removeProbe` removes every entry carrying the probe's id,
idempotently; and (4) an id absent from the collection stays absent across a
spawner step whose fresh id differs, so a removed probe is never re-added. -/
theorem probe_distance_decrease_and_removal
    (start dir : Vec3) (k : ℚ) (δ : ℕ → ℚ)
    (hk : 0 < k) (hdir : dir = k • ((0 : Vec3) - start))
    (hunit : sqNorm dir = 1) (hfar : 3 ≤ 1 / k)
    (hδ : ∀ n, 0 < δ n ∧ 25 * δ n < 6) :
    (∀ n : ℕ, (∀ m, m < n → probeHit (probePath start dir δ (m + 1)) = false) →
        Real.sqrt ((sqNorm (probePath start dir δ (n + 1)) : ℚ) : ℝ) <
          Real.sqrt ((sqNorm (probePath start dir δ n) : ℚ) : ℝ)) ∧
    (∀ p : Vec3, probeHit p = true ↔ Real.sqrt ((sqNorm p : ℚ) : ℝ) < 3) ∧
    (∀ (i : ℕ) (probes : List ProbeEntry),
        (∀ q ∈ removeProbe i probes, q.id ≠ i) ∧
        removeProbe i (removeProbe i probes) = removeProbe i probes) ∧
    (∀ (i newId : ℕ) (probes : List ProbeEntry) (camPos : Vec3)
        (cur prev : Bool),
        (∀ q ∈ probes, q.id ≠ i) → newId ≠ i →
        ∀ q ∈ (probeEffect cur prev probes camPos newId).1, q.id ≠ i) := by
  refine ⟨?_, probeHit_iff_dist, ?_, ?_⟩
  · intro n hlive
    have h3 : 3 ≤ 1 / k - travelled δ n :=
      probe_signed_dist_ge start dir k δ hk hdir hunit hfar hδ n hlive
    have hstep := hδ n
    have hlt : sqNorm (probePath start dir δ (n + 1)) <
        sqNorm (probePath start dir δ n) := by
      rw [sqNorm_probePath start dir k δ hk hdir hunit n,
        sqNorm_probePath start dir k δ hk hdir hunit (n + 1)]
      simp only [travelled]
      nlinarith [hstep.1, hstep.2, h3,
        mul_pos (show (0 : ℚ) < 25 * δ n by linarith [hstep.1])
          (show (0 : ℚ) < 2 * (1 / k - travelled δ n) - 25 * δ n by
            linarith [hstep.2, h3])]
    have hle : (0 : ℝ) ≤ ((sqNorm (probePath start dir δ (n + 1)) : ℚ) : ℝ) := by
      exact_mod_cast sqNorm_nonneg _
    exact Real.sqrt_lt_sqrt hle (by exact_mod_cast hlt)
  · intro i probes
    constructor
    · intro q hq
      have h := List.of_mem_filter hq
      simpa using h
    · rw [removeProbe, removeProbe, List.filter_filter]
      simp
  · intro i newId probes camPos cur prev habs hnew q hq
    by_cases h : (cur && !prev) = true
    · simp only [probeEffect, if_pos h] at hq
      rcases List.mem_append.mp hq with h1 | h1
      · exact habs q h1
      · rw [List.mem_singleton] at h1
        rw [h1]
        exact hnew
    · simp only [probeEffect, if_neg h] at hq
      exact habs q hq

/-- Witness for the amended C6: the probe spawned at `(4, 0, 0)` with unit
direction `(-1, 0, 0)` toward the origin, at a steady frame delta of 1/100,
strictly decreases its distance to the origin on its first frame. -/
theorem probe_distance_decrease_and_removal_witness :
    Real.sqrt ((sqNorm (probePath ⟨4, 0, 0⟩ ⟨-1, 0, 0⟩ (fun _ => 1 / 100) 1) : ℚ) : ℝ) <
      Real.sqrt ((sqNorm (probePath ⟨4, 0, 0⟩ ⟨-1, 0, 0⟩ (fun _ => 1 / 100) 0) : ℚ) : ℝ) :=
  (probe_distance_decrease_and_removal ⟨4, 0, 0⟩ ⟨-1, 0, 0⟩ (1 / 4)
      (fun _ => 1 / 100) (by norm_num) (by ext <;> norm_num)
      (by norm_num [sqNorm, dot]) (by norm_num)
      (fun n => ⟨by norm_num, by norm_num⟩)).1 0
    (fun m hm => absurd hm (Nat.not_lt_zero m))

end BlackHoleChill
